import Mathlib

/-!
Shallow embedding of the fund-and-sign transaction workflow of
`src/chain/fund_transaction.js`.

The workflow validates a request, resolves a fee rate, derives outputs
from address/amount pairs, selects coins to spend (explicitly supplied,
interactively chosen, or left to the funder), funds a PSBT, releases the
created coin locks in a dry run, and signs the funded PSBT.

External collaborators (`getChainFeeRate`, `parseAmount`, `getUtxos`, the
interactive `ask` answer, `fundPsbt`, `signPsbt`, `unlockUtxo`) are modelled
as an `Env` record of oracle results.  Every external call the workflow
issues is recorded in an event trace, so that claims about which calls are
made (and with which arguments) can be stated and proved.

The `asyncAuto` dependency graph is single-threaded cooperative
scheduling; the embedding runs the steps in a dependency-respecting
sequential order (validate; getFee; outputs; getUtxos; utxos; fund;
unlock; sign).  No claim below depends on the relative interleaving of
the independent steps, only on which calls occur and on data flow.
-/

set_option autoImplicit false

namespace FundTransaction

/-- JS strings restricted to the ASCII subset in play, as character lists. -/
abbrev Str := List Char

/-- `[0-9]` character class of the outpoint regular expressions. -/
def isDigitChar (c : Char) : Bool :=
  48 ≤ c.toNat && c.toNat ≤ 57

/-- `[0-9A-F]` with the `i` flag: hexadecimal digit, either case. -/
def isHexChar (c : Char) : Bool :=
  isDigitChar c || (65 ≤ c.toNat && c.toNat ≤ 70) || (97 ≤ c.toNat && c.toNat ≤ 102)

/-- `isOutpoint = n => !!n && /^[0-9A-F]{64}:[0-9]{1,6}$/i.test(n)`. -/
def isOutpoint (s : Str) : Bool :=
  (s.take 64).length == 64 && (s.take 64).all isHexChar &&
    match s.drop 64 with
    | ':' :: ds => !ds.isEmpty && decide (ds.length ≤ 6) && ds.all isDigitChar
    | _ => false

/-- `isPublicKey = n => !!n && /^0[2-3][0-9A-F]{64}$/i.test(n)`. -/
def isPublicKey (s : Str) : Bool :=
  s.length == 66 && s.head? == some '0' &&
    (s.get? 1 == some '2' || s.get? 1 == some '3') &&
    (s.drop 2).all isHexChar

/-- JS `Number` applied to a string of decimal digits. -/
def digitsToNat (s : Str) : Nat :=
  s.foldl (fun acc c => acc * 10 + (c.toNat - 48)) 0

/-- Decimal digit characters of `n`, most significant first; `fuel` bounds
the recursion depth (any `fuel > n` is enough). -/
def natDigitsAux : Nat → Nat → Str
  | 0, _ => []
  | fuel + 1, n =>
    if n < 10 then [Char.ofNat (48 + n)]
    else natDigitsAux fuel (n / 10) ++ [Char.ofNat (48 + n % 10)]

/-- Canonical decimal rendering of a number, as JS template interpolation
of a whole non-negative `Number` produces it (no leading zeros). -/
def natDigits (n : Nat) : Str := natDigitsAux (n + 1) n

/-- `asBigUnit` on a non-negative token count: the exact decimal behind
`(n / 1e8).toFixed(8)`. -/
def asBigUnitNat (n : Nat) : String :=
  let frac := Nat.repr (n % 100000000)
  Nat.repr (n / 100000000) ++ "." ++
    String.mk (List.replicate (8 - frac.length) '0') ++ frac

/-- `asBigUnit = n => (n / 1e8).toFixed(8)`, modelled exactly on integers. -/
def asBigUnit (n : Int) : String :=
  if n < 0 then "-" ++ asBigUnitNat n.natAbs else asBigUnitNat n.toNat

/-- `sumOf = arr => arr.reduce((sum, n) => sum + n, Number())`. -/
def sumOf (arr : List Nat) : Nat :=
  arr.foldl (fun sum n => sum + n) 0

/-- `dustValue = 293`. -/
def dustValue : Nat := 293

/-- `minConfs = 1`. -/
def minConfs : Nat := 1

/-- Result of `asUtxo = n => ({id: n.slice(0, 64), vout: Number(n.slice(65))})`. -/
structure UtxoRef where
  id : Str
  vout : Nat
deriving DecidableEq, Repr

/-- `asUtxo`: split an outpoint string at the colon following 64 hash chars. -/
def asUtxo (n : Str) : UtxoRef :=
  { id := n.take 64, vout := digitsToNat (n.drop 65) }

/-- Funding-primitive input record, the result of
`asInput = n => ({transaction_id: n.id, transaction_vout: n.vout})`. -/
structure InputRec where
  transaction_id : Str
  transaction_vout : Nat
deriving DecidableEq, Repr

/-- `asInput`. -/
def asInput (n : UtxoRef) : InputRec :=
  { transaction_id := n.id, transaction_vout := n.vout }

/-- The textual outpoint `id ++ ":" ++ vout` re-formed from fields, as the
template `` `${transaction_id}:${transaction_vout}` `` produces it. -/
def asOutpointOf (transaction_id : Str) (transaction_vout : Nat) : Str :=
  transaction_id ++ ':' :: natDigits transaction_vout

/-- A confirmed unspent output as enumerated by `getUtxos`. -/
structure Utxo where
  transaction_id : Str
  transaction_vout : Nat
  tokens : Nat
deriving DecidableEq, Repr

/-- `asOutpoint = utxo => transaction_id:transaction_vout` on enumerated coins. -/
def asOutpoint (u : Utxo) : Str :=
  asOutpointOf u.transaction_id u.transaction_vout

/-- Destination output derived from an address and a parsed amount. -/
structure Output where
  address : String
  tokens : Nat
deriving DecidableEq, Repr

/-- An input of the funded PSBT, carrying the lock created for it. -/
structure FundedInput where
  lock_id : Str
  transaction_id : Str
  transaction_vout : Nat
deriving DecidableEq, Repr

/-- An output of the funded PSBT (possibly the flagged change output). -/
structure FundedOutput where
  tokens : Nat
  is_change : Bool
deriving DecidableEq, Repr

/-- The `fundPsbt` result used by the workflow. -/
structure FundedTx where
  inputs : List FundedInput
  outputs : List FundedOutput
  psbt : String
deriving DecidableEq, Repr

/-- The `getChainFeeRate` result used by the workflow. -/
structure FeeRate where
  tokens_per_vbyte : Nat
deriving DecidableEq, Repr

/-- The final workflow result `{signed_transaction}`. -/
structure SignedResult where
  signed_transaction : String
deriving DecidableEq, Repr

/-- The request arguments.  `lnd` and `ask` record the presence of the
authenticated service handle and of the prompt capability (the `isArray`
checks of the source are vacuous in this typed embedding and are noted
where they occur in `validate`). -/
structure Args where
  addresses : List Str
  amounts : List String
  fee_tokens_per_vbyte : Option Nat
  is_dry_run : Bool
  is_selecting_utxos : Bool
  lnd : Bool
  ask : Bool
  utxos : List Str

/-- A workflow failure: `codeMsg` is a `[code, message]` callback error of
the workflow itself, `ext` an external-service failure surfaced unchanged. -/
inductive Failure where
  | codeMsg (code : Nat) (msg : String)
  | ext (msg : String)
deriving DecidableEq, Repr

/-- One external call issued by the workflow, with the arguments the
claims are about. -/
inductive Event where
  | feeQuery
  | utxoQuery
  | parseCall (amount : String)
  | askPrompt
  | fundCall (outputs : List Output) (inputs : Option (List InputRec)) (fee : Nat)
  | signCall (psbt : String)
  | unlockCall (lock_id : Str) (transaction_id : Str) (transaction_vout : Nat)
deriving DecidableEq, Repr

/-- Oracle results of the external collaborators for one invocation. -/
structure Env where
  getChainFeeRate : Except String FeeRate
  parseAmount : String → Except String Nat
  getUtxos : Except String (List Utxo)
  askAnswer : List Str
  fundPsbt : List Output → Option (List InputRec) → Nat → Except String FundedTx
  signPsbt : String → Except String String
  unlockUtxo : Str → Str → Nat → Except String Unit

/-- The `validate` task: returns the first failing precondition, if any.
The two `isArray` checks (`ExpectedAddressesToFundTransaction`) always
pass in this typed embedding and are elided. -/
def validate (args : Args) : Option Failure :=
  if args.lnd = false then
    some (.codeMsg 400 "ExpectedAuthenticatedLndToFundTransaction")
  else if args.addresses = [] then
    some (.codeMsg 400 "ExpectedAddressToSendFundsToInTransaction")
  else if args.addresses.length ≠ args.amounts.length then
    some (.codeMsg 400 "ExpectedAmountOfFundsToSendToAddress")
  else if args.addresses.any (fun n => isPublicKey n) then
    some (.codeMsg 400 "ExpectedFundPayingToAddressesNotPublicKeys")
  else if args.ask = false then
    some (.codeMsg 400 "ExpectedAskFunctionToFundTransaction")
  else if args.utxos.any (fun n => !isOutpoint n) then
    some (.codeMsg 400 "ExpectedOutpointFormattedUtxoToFundTransaction")
  else if args.utxos ≠ [] ∧ args.is_selecting_utxos = true then
    some (.codeMsg 400 "ExpectedEitherSelectUtxosOrExplicitUtxosNotBoth")
  else
    none

/-- The `outputs` task body: parse each amount in order, pairing it with
its address; the first parser failure aborts with `[400, err.message]`. -/
def buildOutputs (env : Env) : List (Str × String) → Except Failure (List Output) × List Event
  | [] => (.ok [], [])
  | (address, amount) :: rest =>
    match env.parseAmount amount with
    | .error e => (.error (.codeMsg 400 e), [.parseCall amount])
    | .ok tokens =>
      match buildOutputs env rest with
      | (.ok os, ev) => (.ok ({ address := ⟨address⟩, tokens := tokens } :: os), .parseCall amount :: ev)
      | (.error e, ev) => (.error e, .parseCall amount :: ev)

/-- The `getUtxos` task: exit early when not selecting UTXOs, otherwise
enumerate confirmed coins. -/
def getUtxosStep (args : Args) (env : Env) : Except Failure (Option (List Utxo)) × List Event :=
  if args.is_selecting_utxos = false then (.ok none, [])
  else
    match env.getUtxos with
    | .error e => (.error (.ext e), [.utxoQuery])
    | .ok us => (.ok (some us), [.utxoQuery])

/-- The `utxos` task: explicit coins win; otherwise an empty list when not
selecting interactively; otherwise fail on an empty wallet or prompt.
`enumerated` is `some` whenever the prompt branch is reachable (see
`getUtxosStep`). -/
def utxosStep (args : Args) (env : Env) (enumerated : Option (List Utxo)) :
    Except Failure (List Str) × List Event :=
  if args.utxos ≠ [] then (.ok args.utxos, [])
  else if args.is_selecting_utxos = false then (.ok [], [])
  else
    let coins := enumerated.getD []
    if coins = [] then (.error (.codeMsg 400 "WalletHasZeroConfirmedUtxos"), [])
    else (.ok env.askAnswer, [.askPrompt])

/-- A reply of the `ask` checkbox `validate` callback: `true`, `false`, or
a shortfall message string. -/
inductive AskReply where
  | accepted
  | rejected
  | rejectedMsg (msg : String)
deriving DecidableEq, Repr

/-- `getUtxos.utxos.find(n => asOutpoint(n) === utxo)`. -/
def lookupSelected (utxos : List Utxo) (u : Str) : Option Utxo :=
  utxos.find? (fun n => asOutpoint n == u)

/-- Token values of the selected outpoints; `none` when some selected
outpoint is not among the enumerated coins (the source would throw there). -/
def selectedTokens (utxos : List Utxo) (input : List Str) : Option (List Nat) :=
  input.mapM (fun u => (lookupSelected utxos u).map (fun n => n.tokens))

/-- The synchronous `validate` callback passed to `ask`: reject an empty
selection outright; otherwise compare the sum of the selected coins with
the sum of the requested amounts and either accept or report the
shortfall. -/
def askValidate (amounts : List Nat) (utxos : List Utxo) (input : List Str) : Option AskReply :=
  if input = [] then some .rejected
  else
    match selectedTokens utxos input with
    | none => none
    | some toks =>
      let tokens := sumOf toks
      let missingTok := asBigUnit ((sumOf amounts : Int) - (tokens : Int))
      if tokens < sumOf amounts then
        some (.rejectedMsg ("Selected " ++ asBigUnit (tokens : Int) ++ ", need " ++ missingTok ++ " more"))
      else
        some .accepted

/-- `args.fee_tokens_per_vbyte || getFee.tokens_per_vbyte`: JS `||` falls
through on the falsy `0` and on an absent value. -/
def jsOr (a : Option Nat) (b : Nat) : Nat :=
  match a with
  | some v => if v = 0 then b else v
  | none => b

/-- The `fund` task: parse selected outpoints into input records, resolve
the fee, enforce the dust floor, then call `fundPsbt` (with `inputs`
omitted when none were pre-selected).  The `logger.info` call is
observability only and is not traced. -/
def fundStep (args : Args) (env : Env) (feeRes : FeeRate) (outputs : List Output)
    (utxos : List Str) : Except Failure FundedTx × List Event :=
  let inputs := (utxos.map asUtxo).map asInput
  let fee := jsOr args.fee_tokens_per_vbyte feeRes.tokens_per_vbyte
  if (outputs.filter (fun n => n.tokens < dustValue)) ≠ [] then
    (.error (.codeMsg 400 "ExpectedNonDustAmountValueForFundingAmount"), [])
  else
    let sentInputs := if inputs ≠ [] then some inputs else none
    match env.fundPsbt outputs sentInputs fee with
    | .error e => (.error (.ext e), [.fundCall outputs sentInputs fee])
    | .ok f => (.ok f, [.fundCall outputs sentInputs fee])

/-- The `unlock` task: a no-op unless a dry run; in a dry run `asyncEach`
issues one `unlockUtxo` call per funded input (a parallel fan-out, so all
calls are issued) and the step fails if any single unlock fails. -/
def unlockStep (args : Args) (env : Env) (fund : FundedTx) : Except Failure Unit × List Event :=
  if args.is_dry_run = false then (.ok (), [])
  else
    let events := fund.inputs.map (fun i =>
      Event.unlockCall i.lock_id i.transaction_id i.transaction_vout)
    match fund.inputs.findSome? (fun i =>
        match env.unlockUtxo i.lock_id i.transaction_id i.transaction_vout with
        | .error e => some e
        | .ok _ => none) with
    | some e => (.error (.ext e), events)
    | none => (.ok (), events)

/-- The `sign` task: sign the funded PSBT.  The `logger.info` call (change
amount, output total, spent outpoints) is observability only and is not
traced. -/
def signStep (env : Env) (fund : FundedTx) : Except Failure String × List Event :=
  match env.signPsbt fund.psbt with
  | .error e => (.error (.ext e), [.signCall fund.psbt])
  | .ok tx => (.ok tx, [.signCall fund.psbt])

/-- The whole workflow: the `asyncAuto` graph run in dependency order,
returning the `funded` result (or the first failure) together with the
trace of external calls issued. -/
def fundTransaction (args : Args) (env : Env) : Except Failure SignedResult × List Event :=
  match validate args with
  | some e => (.error e, [])
  | none =>
    match env.getChainFeeRate with
    | .error e => (.error (.ext e), [.feeQuery])
    | .ok feeRes =>
      match buildOutputs env (args.addresses.zip args.amounts) with
      | (.error e, evO) => (.error e, .feeQuery :: evO)
      | (.ok outputs, evO) =>
        match getUtxosStep args env with
        | (.error e, evG) => (.error e, .feeQuery :: (evO ++ evG))
        | (.ok enumerated, evG) =>
          match utxosStep args env enumerated with
          | (.error e, evU) => (.error e, .feeQuery :: (evO ++ evG ++ evU))
          | (.ok us, evU) =>
            match fundStep args env feeRes outputs us with
            | (.error e, evF) => (.error e, .feeQuery :: (evO ++ evG ++ evU ++ evF))
            | (.ok f, evF) =>
              match unlockStep args env f with
              | (.error e, evL) =>
                (.error e, .feeQuery :: (evO ++ evG ++ evU ++ evF ++ evL))
              | (.ok _, evL) =>
                match signStep env f with
                | (.error e, evS) =>
                  (.error e, .feeQuery :: (evO ++ evG ++ evU ++ evF ++ evL ++ evS))
                | (.ok tx, evS) =>
                  (.ok { signed_transaction := tx },
                    .feeQuery :: (evO ++ evG ++ evU ++ evF ++ evL ++ evS))

/-- The outpoint string a funding input record re-forms to,
`` `${input.transaction_id}:${input.transaction_vout}` ``. -/
def inputOutpoint (i : InputRec) : Str :=
  asOutpointOf i.transaction_id i.transaction_vout

/-- Is this event an `unlockUtxo` call? -/
def isUnlockEvent : Event → Bool
  | .unlockCall _ _ _ => true
  | _ => false

/-- Is this event a `fundPsbt` call? -/
def isFundEvent : Event → Bool
  | .fundCall _ _ _ => true
  | _ => false

/-! ### Example fixtures -/

/-- A 64-character hexadecimal transaction hash for concrete examples. -/
def exHash : Str := List.replicate 64 'a'

/-- A funded transaction with two locked inputs, as `fundPsbt` could return. -/
def exFunded : FundedTx :=
  { inputs := [
      { lock_id := ['l', '1'], transaction_id := exHash, transaction_vout := 0 },
      { lock_id := ['l', '2'], transaction_id := exHash, transaction_vout := 1 }],
    outputs := [{ tokens := 90000, is_change := true }, { tokens := 100000, is_change := false }],
    psbt := "psbt0" }

/-- An environment in which every external call succeeds. -/
def envA : Env :=
  { getChainFeeRate := .ok { tokens_per_vbyte := 2 },
    parseAmount := fun _ => .ok 100000,
    getUtxos := .ok [],
    askAnswer := [],
    fundPsbt := fun _ _ _ => .ok exFunded,
    signPsbt := fun _ => .ok "feedbeef",
    unlockUtxo := fun _ _ _ => .ok () }

/-- A well-formed baseline request: one address, one amount, no explicit
coins, no interactive selection, not a dry run. -/
def argsBase : Args :=
  { addresses := [['a', 'd', 'r']],
    amounts := ["0.001"],
    fee_tokens_per_vbyte := none,
    is_dry_run := false,
    is_selecting_utxos := false,
    lnd := true,
    ask := true,
    utxos := [] }

/-- A request whose addresses and amounts differ in length. -/
def argsMismatch : Args := { argsBase with amounts := [] }

/-- A concrete enumerated coin for the C4 witness. -/
def exCoin : Utxo := { transaction_id := exHash, transaction_vout := 3, tokens := 600 }

/-- An outpoint string whose index part carries a leading zero; the
validator accepts it but it does not survive the parse/re-form round
trip. -/
def leadingZeroOutpoint : Str := exHash ++ ':' :: ['0', '0']

/-- An environment whose amount parser resolves every amount to 100
tokens, below the dust floor. -/
def envDust : Env := { envA with parseAmount := fun _ => .ok 100 }

/-- An environment with one enumerated coin, a dust-level parsed amount,
and an interactive answer selecting that coin. -/
def envDustSel : Env :=
  { envA with
    parseAmount := fun _ => .ok 100,
    getUtxos := .ok [exCoin],
    askAnswer := [asOutpoint exCoin] }

/-- The baseline request with an explicit fee rate of 21 tokens/vbyte. -/
def argsFee : Args := { argsBase with fee_tokens_per_vbyte := some 21 }

/-- The baseline request with one explicit coin `aa…a:7`. -/
def argsCoin : Args := { argsBase with utxos := [exHash ++ ':' :: ['7']] }

/-- The baseline request with an explicit fee rate of 0. -/
def argsZeroFee : Args := { argsBase with fee_tokens_per_vbyte := some 0 }

/-- The baseline request as a dry run. -/
def argsDry : Args := { argsBase with is_dry_run := true }

/-- The baseline request with interactive selection enabled. -/
def argsSel : Args := { argsBase with is_selecting_utxos := true }

/-! ### Decimal digit arithmetic -/

theorem toNat_ofNat_digit (k : Nat) (h : k < 10) : (Char.ofNat (48 + k)).toNat = 48 + k := by
  interval_cases k <;> decide

theorem isDigitChar_ofNat_digit (k : Nat) (h : k < 10) :
    isDigitChar (Char.ofNat (48 + k)) = true := by
  interval_cases k <;> decide

theorem digitsToNat_append_digit (l : Str) (c : Char) :
    digitsToNat (l ++ [c]) = digitsToNat l * 10 + (c.toNat - 48) := by
  simp [digitsToNat, List.foldl_append]

theorem digitsToNat_natDigitsAux (fuel n : Nat) (h : n < fuel) :
    digitsToNat (natDigitsAux fuel n) = n := by
  induction fuel generalizing n with
  | zero => omega
  | succ fuel ih =>
    rw [natDigitsAux]
    by_cases h10 : n < 10
    · rw [if_pos h10]
      have h1 : digitsToNat [Char.ofNat (48 + n)] = (Char.ofNat (48 + n)).toNat - 48 := by
        simp [digitsToNat]
      rw [h1, toNat_ofNat_digit n h10]
      omega
    · rw [if_neg h10, digitsToNat_append_digit, ih (n / 10) (by omega),
        toNat_ofNat_digit (n % 10) (by omega)]
      omega

theorem digitsToNat_natDigits (n : Nat) : digitsToNat (natDigits n) = n :=
  digitsToNat_natDigitsAux (n + 1) n (Nat.lt_succ_self n)

theorem natDigitsAux_all_digits (fuel n : Nat) (h : n < fuel) :
    (natDigitsAux fuel n).all isDigitChar = true := by
  induction fuel generalizing n with
  | zero => omega
  | succ fuel ih =>
    rw [natDigitsAux]
    by_cases h10 : n < 10
    · rw [if_pos h10]
      simp [isDigitChar_ofNat_digit n h10]
    · rw [if_neg h10]
      simp only [List.all_append]
      rw [ih (n / 10) (by omega)]
      simp [isDigitChar_ofNat_digit (n % 10) (by omega)]

theorem natDigitsAux_ne_nil (fuel n : Nat) (h : n < fuel) : natDigitsAux fuel n ≠ [] := by
  cases fuel with
  | zero => omega
  | succ fuel =>
    rw [natDigitsAux]
    by_cases h10 : n < 10
    · simp [h10]
    · simp [h10]

theorem natDigitsAux_length_le (fuel : Nat) : ∀ n k : Nat, n < fuel → 1 ≤ k → n < 10 ^ k →
    (natDigitsAux fuel n).length ≤ k := by
  induction fuel with
  | zero => omega
  | succ fuel ih =>
    intro n k h hk hn
    rw [natDigitsAux]
    by_cases h10 : n < 10
    · rw [if_pos h10]
      simpa using hk
    · rw [if_neg h10]
      have hk2 : 2 ≤ k := by
        by_contra hc
        have hk1 : k = 1 := by omega
        subst hk1
        simp only [pow_one] at hn
        omega
      have hpow : 10 ^ k = 10 ^ (k - 1) * 10 := by
        conv_lhs => rw [show k = (k - 1) + 1 by omega]
        rw [pow_succ]
      have hdiv : n / 10 < 10 ^ (k - 1) := by
        rw [Nat.div_lt_iff_lt_mul (by norm_num)]
        exact hpow ▸ hn
      have hlen := ih (n / 10) (k - 1) (by omega) (by omega) hdiv
      simp only [List.length_append, List.length_cons, List.length_nil]
      omega

theorem natDigits_ne_nil (n : Nat) : natDigits n ≠ [] :=
  natDigitsAux_ne_nil (n + 1) n (Nat.lt_succ_self n)

theorem natDigits_all_digits (n : Nat) : (natDigits n).all isDigitChar = true :=
  natDigitsAux_all_digits (n + 1) n (Nat.lt_succ_self n)

theorem natDigits_length_le_six (n : Nat) (h : n ≤ 999999) : (natDigits n).length ≤ 6 :=
  natDigitsAux_length_le (n + 1) n 6 (Nat.lt_succ_self n) (by omega) (by norm_num; omega)

/-! ### Outpoint parsing and re-forming -/

theorem take_64_outpoint (h d : Str) (hlen : h.length = 64) : (h ++ ':' :: d).take 64 = h :=
  List.take_left' hlen

theorem drop_64_outpoint (h d : Str) (hlen : h.length = 64) :
    (h ++ ':' :: d).drop 64 = ':' :: d :=
  List.drop_left' hlen

theorem drop_65_outpoint (h d : Str) (hlen : h.length = 64) : (h ++ ':' :: d).drop 65 = d := by
  have h1 : ((h ++ ':' :: d).drop 64).drop 1 = (h ++ ':' :: d).drop 65 := by
    rw [List.drop_drop]
  rw [← h1, drop_64_outpoint h d hlen]
  rfl

theorem asUtxo_construct (h : Str) (v : Nat) (hlen : h.length = 64) :
    asUtxo (h ++ ':' :: natDigits v) = { id := h, vout := v } := by
  unfold asUtxo
  rw [take_64_outpoint h _ hlen, drop_65_outpoint h _ hlen, digitsToNat_natDigits]

theorem isOutpoint_construct (h : Str) (v : Nat) (hlen : h.length = 64)
    (hhex : h.all isHexChar = true) (hv : v ≤ 999999) :
    isOutpoint (h ++ ':' :: natDigits v) = true := by
  unfold isOutpoint
  rw [take_64_outpoint h _ hlen, drop_64_outpoint h _ hlen]
  simp [hlen, hhex, natDigits_all_digits v, natDigits_length_le_six v hv,
    List.isEmpty_iff, natDigits_ne_nil v]

/-! ### Trace classification -/

theorem filter_eq_nil_of_false (p : Event → Bool) (l : List Event)
    (h : ∀ e ∈ l, p e = false) : l.filter p = [] :=
  List.filter_eq_nil_iff.mpr (by simpa using h)

theorem buildOutputs_events (env : Env) (l : List (Str × String)) :
    ∀ e ∈ (buildOutputs env l).2, ∃ a, e = Event.parseCall a := by
  induction l with
  | nil => simp [buildOutputs]
  | cons p rest ih =>
    obtain ⟨address, amount⟩ := p
    simp only [buildOutputs]
    cases env.parseAmount amount with
    | error e => simp
    | ok tokens =>
      cases hrec : buildOutputs env rest with
      | mk r ev =>
        rw [hrec] at ih
        cases r with
        | error e =>
          simp only [List.mem_cons]
          rintro x (rfl | hx)
          · exact ⟨amount, rfl⟩
          · exact ih x hx
        | ok os =>
          simp only [List.mem_cons]
          rintro x (rfl | hx)
          · exact ⟨amount, rfl⟩
          · exact ih x hx

theorem getUtxosStep_events (args : Args) (env : Env) :
    ∀ e ∈ (getUtxosStep args env).2, e = Event.utxoQuery := by
  unfold getUtxosStep
  split
  · simp
  · cases env.getUtxos <;> simp

theorem utxosStep_events (args : Args) (env : Env) (enumerated : Option (List Utxo)) :
    ∀ e ∈ (utxosStep args env enumerated).2, e = Event.askPrompt := by
  unfold utxosStep
  split
  · simp
  · split
    · simp
    · dsimp only
      split
      · simp
      · simp

theorem fundStep_events (args : Args) (env : Env) (feeRes : FeeRate) (outputs : List Output)
    (utxos : List Str) :
    ∀ e ∈ (fundStep args env feeRes outputs utxos).2, ∃ o i fe, e = Event.fundCall o i fe := by
  unfold fundStep
  split
  · simp
  · dsimp only
    split
    · simp
    · simp

theorem unlockStep_events (args : Args) (env : Env) (fund : FundedTx) :
    ∀ e ∈ (unlockStep args env fund).2, ∃ a b c, e = Event.unlockCall a b c := by
  unfold unlockStep
  split
  · simp
  · split
    · simp only [List.mem_map]
      rintro e ⟨i, _, rfl⟩
      exact ⟨_, _, _, rfl⟩
    · simp only [List.mem_map]
      rintro e ⟨i, _, rfl⟩
      exact ⟨_, _, _, rfl⟩

theorem signStep_events (env : Env) (fund : FundedTx) :
    ∀ e ∈ (signStep env fund).2, e = Event.signCall fund.psbt := by
  unfold signStep
  split
  · simp
  · simp

/-! ### Workflow unfolding lemmas -/

theorem fundTransaction_eq_of_reach (args : Args) (env : Env) (feeRes : FeeRate)
    (outputs : List Output) (evO : List Event) (enumerated : Option (List Utxo))
    (evG : List Event) (us : List Str) (evU : List Event)
    (hv : validate args = none)
    (hf : env.getChainFeeRate = .ok feeRes)
    (hbo : buildOutputs env (args.addresses.zip args.amounts) = (.ok outputs, evO))
    (hgu : getUtxosStep args env = (.ok enumerated, evG))
    (hus : utxosStep args env enumerated = (.ok us, evU)) :
    fundTransaction args env =
      match fundStep args env feeRes outputs us with
      | (.error e, evF) => (.error e, .feeQuery :: (evO ++ evG ++ evU ++ evF))
      | (.ok f, evF) =>
        match unlockStep args env f with
        | (.error e, evL) => (.error e, .feeQuery :: (evO ++ evG ++ evU ++ evF ++ evL))
        | (.ok _, evL) =>
          match signStep env f with
          | (.error e, evS) =>
            (.error e, .feeQuery :: (evO ++ evG ++ evU ++ evF ++ evL ++ evS))
          | (.ok tx, evS) =>
            (.ok { signed_transaction := tx },
              .feeQuery :: (evO ++ evG ++ evU ++ evF ++ evL ++ evS)) := by
  simp only [fundTransaction, hv, hf, hbo, hgu, hus]

theorem dust_blocks_fund (args : Args) (env : Env) (feeRes : FeeRate) (outputs : List Output)
    (us : List Str) (hd : ∃ o ∈ outputs, o.tokens < dustValue) :
    fundStep args env feeRes outputs us =
      (.error (.codeMsg 400 "ExpectedNonDustAmountValueForFundingAmount"), []) := by
  unfold fundStep
  rw [if_pos]
  intro heq
  obtain ⟨o, ho, hlt⟩ := hd
  rw [List.filter_eq_nil_iff] at heq
  exact absurd hlt (by simpa using heq o ho)

theorem fundStep_no_dust (args : Args) (env : Env) (feeRes : FeeRate) (outputs : List Output)
    (us : List Str) (hd : ∀ o ∈ outputs, dustValue ≤ o.tokens) :
    fundStep args env feeRes outputs us =
      (let inputs := (us.map asUtxo).map asInput
       let fee := jsOr args.fee_tokens_per_vbyte feeRes.tokens_per_vbyte
       let sentInputs := if inputs ≠ [] then some inputs else none
       match env.fundPsbt outputs sentInputs fee with
       | .error e => (.error (.ext e), [.fundCall outputs sentInputs fee])
       | .ok f => (.ok f, [.fundCall outputs sentInputs fee])) := by
  unfold fundStep
  rw [if_neg]
  simp only [ne_eq, not_not, List.filter_eq_nil_iff]
  intro o ho
  simpa using hd o ho

theorem unlockStep_ok (args : Args) (env : Env) (fund : FundedTx)
    (h : args.is_dry_run = true)
    (hun : ∀ i ∈ fund.inputs,
      env.unlockUtxo i.lock_id i.transaction_id i.transaction_vout = .ok ()) :
    unlockStep args env fund =
      (.ok (), fund.inputs.map fun i =>
        Event.unlockCall i.lock_id i.transaction_id i.transaction_vout) := by
  unfold unlockStep
  rw [if_neg (by simp [h])]
  have hnone : fund.inputs.findSome? (fun i =>
      match env.unlockUtxo i.lock_id i.transaction_id i.transaction_vout with
      | .error e => some e
      | .ok _ => none) = none := by
    rw [List.findSome?_eq_none_iff]
    intro i hi
    rw [hun i hi]
  rw [hnone]

theorem unlockStep_not_dry (args : Args) (env : Env) (fund : FundedTx)
    (h : args.is_dry_run = false) :
    unlockStep args env fund = (.ok (), []) := by
  unfold unlockStep
  rw [if_pos h]

/-- When the invocation is not a dry run, no branch of the workflow ever
issues an unlock call. -/
theorem no_unlock_of_not_dry (args : Args) (env : Env) (h : args.is_dry_run = false) :
    ((fundTransaction args env).2).filter isUnlockEvent = [] := by
  have hO : ∀ l, ((buildOutputs env l).2).filter isUnlockEvent = [] := fun l =>
    filter_eq_nil_of_false _ _ (fun e he => by
      obtain ⟨a, rfl⟩ := buildOutputs_events env l e he; rfl)
  have hG : ((getUtxosStep args env).2).filter isUnlockEvent = [] :=
    filter_eq_nil_of_false _ _ (fun e he => by rw [getUtxosStep_events args env e he]; rfl)
  have hU : ∀ en, ((utxosStep args env en).2).filter isUnlockEvent = [] := fun en =>
    filter_eq_nil_of_false _ _ (fun e he => by rw [utxosStep_events args env en e he]; rfl)
  have hF : ∀ fr os us, ((fundStep args env fr os us).2).filter isUnlockEvent = [] :=
    fun fr os us => filter_eq_nil_of_false _ _ (fun e he => by
      obtain ⟨o, i, fe, rfl⟩ := fundStep_events args env fr os us e he; rfl)
  have hS : ∀ f, ((signStep env f).2).filter isUnlockEvent = [] := fun f =>
    filter_eq_nil_of_false _ _ (fun e he => by rw [signStep_events env f e he]; rfl)
  unfold fundTransaction
  cases hv : validate args with
  | some e => simp
  | none =>
  cases hf : env.getChainFeeRate with
  | error e => simp [isUnlockEvent]
  | ok feeRes =>
  cases hbo : buildOutputs env (args.addresses.zip args.amounts) with
  | mk rO evO =>
  have hO' := hO (args.addresses.zip args.amounts)
  rw [hbo] at hO'
  cases rO with
  | error e => simp [List.filter_append, hO', isUnlockEvent]
  | ok outputs =>
  cases hgu : getUtxosStep args env with
  | mk rG evG =>
  have hG' := hG
  rw [hgu] at hG'
  cases rG with
  | error e => simp [List.filter_append, hO', hG', isUnlockEvent]
  | ok enumerated =>
  cases hus : utxosStep args env enumerated with
  | mk rU evU =>
  have hU' := hU enumerated
  rw [hus] at hU'
  cases rU with
  | error e => simp [List.filter_append, hus, hO', hG', hU', isUnlockEvent]
  | ok us =>
  cases hfs : fundStep args env feeRes outputs us with
  | mk rF evF =>
  have hF' := hF feeRes outputs us
  rw [hfs] at hF'
  cases rF with
  | error e => simp [List.filter_append, hus, hfs, hO', hG', hU', hF', isUnlockEvent]
  | ok f =>
  have hL := unlockStep_not_dry args env f h
  cases hss : signStep env f with
  | mk rS evS =>
  have hS' := hS f
  rw [hss] at hS'
  cases rS with
  | error e =>
    simp [List.filter_append, hus, hfs, hL, hss, hO', hG', hU', hF', hS', isUnlockEvent]
  | ok tx =>
    simp [List.filter_append, hus, hfs, hL, hss, hO', hG', hU', hF', hS', isUnlockEvent]

/-! ### Validator facts -/

theorem validate_fails_of_mismatch_or_both (args : Args)
    (h : args.addresses.length ≠ args.amounts.length ∨
      (args.utxos ≠ [] ∧ args.is_selecting_utxos = true)) :
    ∃ m, validate args = some (.codeMsg 400 m) := by
  unfold validate
  split_ifs
  all_goals first
    | exact ⟨_, rfl⟩
    | tauto

theorem validate_none_facts (args : Args) (h : validate args = none) :
    args.lnd = true ∧ args.addresses ≠ [] ∧
    args.addresses.length = args.amounts.length ∧ args.ask = true ∧
    (args.is_selecting_utxos = true → args.utxos = []) := by
  unfold validate at h
  split_ifs at h with h1 h2 h3 h4 h5 h6 h7
  refine ⟨by simpa using h1, h2, by omega, by simpa using h5, fun hs => ?_⟩
  by_contra hne
  exact h7 ⟨hne, hs⟩

/-! ### C2 -/

/-- C2: for every request in which addresses and amounts differ in length,
or in which both a non-empty explicit coin list and the
interactive-selection flag are supplied, the workflow fails with a
precondition error of HTTP-style code 400 and the trace of external calls
is empty (no fee query, coin enumeration, parsing, funding, signing,
unlocking or prompting happened). -/
theorem precondition_failure_no_calls (args : Args) (env : Env)
    (h : args.addresses.length ≠ args.amounts.length ∨
      (args.utxos ≠ [] ∧ args.is_selecting_utxos = true)) :
    ∃ m, fundTransaction args env = (.error (.codeMsg 400 m), []) := by
  obtain ⟨m, hm⟩ := validate_fails_of_mismatch_or_both args h
  exact ⟨m, by simp [fundTransaction, hm]⟩

/-- Witness for C2 at a concrete mismatched request. -/
theorem precondition_failure_no_calls_witness :
    (argsMismatch.addresses.length ≠ argsMismatch.amounts.length ∨
      (argsMismatch.utxos ≠ [] ∧ argsMismatch.is_selecting_utxos = true)) ∧
    ∃ m, fundTransaction argsMismatch envA = (.error (.codeMsg 400 m), []) :=
  ⟨Or.inl (by decide), precondition_failure_no_calls argsMismatch envA (Or.inl (by decide))⟩

/-! ### C4 -/

/-- C4: the interactive selection's validation callback, for requested
total `T = sumOf amounts` and a non-empty selection resolving to token
values `toks` with sum `S = sumOf toks`, accepts exactly when `S ≥ T`;
when `S < T` it returns the rejection message whose shortfall is `T - S`
in display units (`asBigUnit`, the exact decimal of division by `1e8`
with 8 decimal places); an empty selection is always rejected. -/
theorem ask_validation_correct (amounts : List Nat) (utxos : List Utxo) (input : List Str)
    (toks : List Nat) (hne : input ≠ [])
    (hsel : selectedTokens utxos input = some toks) :
    (askValidate amounts utxos input = some .accepted ↔ sumOf amounts ≤ sumOf toks)
    ∧ (sumOf toks < sumOf amounts →
        askValidate amounts utxos input = some (.rejectedMsg
          ("Selected " ++ asBigUnit (sumOf toks : Int) ++ ", need "
            ++ asBigUnit ((sumOf amounts : Int) - (sumOf toks : Int)) ++ " more")))
    ∧ askValidate amounts utxos [] = some .rejected := by
  refine ⟨?_, ?_, by simp [askValidate]⟩
  · unfold askValidate
    rw [if_neg hne, hsel]
    dsimp only
    split_ifs with hlt
    · simp only [Option.some.injEq]
      constructor
      · intro hc
        exact absurd hc (by simp)
      · intro hle
        omega
    · simp only [Option.some.injEq]
      constructor
      · intro _
        omega
      · intro _
        trivial
  · intro hlt
    unfold askValidate
    rw [if_neg hne, hsel]
    dsimp only
    rw [if_pos hlt]

/-- Witness for C4: one coin worth 600 selected against a request of 1000. -/
theorem ask_validation_correct_witness :
    ([asOutpoint exCoin] ≠ ([] : List Str) ∧
      selectedTokens [exCoin] [asOutpoint exCoin] = some [600]) ∧
    ((askValidate [1000] [exCoin] [asOutpoint exCoin] = some .accepted ↔
        sumOf [1000] ≤ sumOf [600])
      ∧ (sumOf [600] < sumOf [1000] →
          askValidate [1000] [exCoin] [asOutpoint exCoin] = some (.rejectedMsg
            ("Selected " ++ asBigUnit (sumOf [600] : Int) ++ ", need "
              ++ asBigUnit ((sumOf [1000] : Int) - (sumOf [600] : Int)) ++ " more")))
      ∧ askValidate [1000] [exCoin] [] = some .rejected) :=
  ⟨⟨by decide, by decide⟩,
    ask_validation_correct [1000] [exCoin] [asOutpoint exCoin] [600] (by decide) (by decide)⟩

/-! ### C8 -/

/-- Counterexample to C8 as stated: `leadingZeroOutpoint` is in the
canonical form the validator accepts (`64 hex chars`, colon, 1–6 digits),
yet re-forming `transaction_id:transaction_vout` from the parsed input
record does not recover it (`…:00` re-forms to `…:0`). -/
theorem outpoint_roundtrip_counterexample :
    isOutpoint leadingZeroOutpoint = true ∧
    inputOutpoint (asInput (asUtxo leadingZeroOutpoint)) ≠ leadingZeroOutpoint := by
  constructor
  · decide
  · decide

/-- C8 (amended): for every accepted coin string, the parsed input record's
`transaction_id` is exactly the first 64 characters and its
`transaction_vout` is the numeric value of the part after the colon; the
re-formed `transaction_id:transaction_vout` recovers the outpoint whenever
the index part is written in canonical decimal (no leading zeros), here
expressed by quantifying over the hash `h` and the numeric index `v`. -/
theorem outpoint_parse_roundtrip (h : Str) (v : Nat) (hlen : h.length = 64)
    (hhex : h.all isHexChar = true) (hv : v ≤ 999999) :
    isOutpoint (h ++ ':' :: natDigits v) = true
    ∧ (asInput (asUtxo (h ++ ':' :: natDigits v))).transaction_id =
        (h ++ ':' :: natDigits v).take 64
    ∧ (asInput (asUtxo (h ++ ':' :: natDigits v))).transaction_vout =
        digitsToNat ((h ++ ':' :: natDigits v).drop 65)
    ∧ inputOutpoint (asInput (asUtxo (h ++ ':' :: natDigits v))) = h ++ ':' :: natDigits v := by
  refine ⟨isOutpoint_construct h v hlen hhex hv, rfl, rfl, ?_⟩
  rw [asUtxo_construct h v hlen]
  rfl

/-- Witness for C8 (amended) at hash `aa…a` and index 7. -/
theorem outpoint_parse_roundtrip_witness :
    (exHash.length = 64 ∧ exHash.all isHexChar = true ∧ (7 : Nat) ≤ 999999) ∧
    (isOutpoint (exHash ++ ':' :: natDigits 7) = true
      ∧ (asInput (asUtxo (exHash ++ ':' :: natDigits 7))).transaction_id =
          (exHash ++ ':' :: natDigits 7).take 64
      ∧ (asInput (asUtxo (exHash ++ ':' :: natDigits 7))).transaction_vout =
          digitsToNat ((exHash ++ ':' :: natDigits 7).drop 65)
      ∧ inputOutpoint (asInput (asUtxo (exHash ++ ':' :: natDigits 7))) =
          exHash ++ ':' :: natDigits 7) :=
  ⟨⟨by decide, by decide, by decide⟩,
    outpoint_parse_roundtrip exHash 7 (by decide) (by decide) (by decide)⟩

/-! ### Funding-call trace characterization -/

theorem fund_call_trace (args : Args) (env : Env) (feeRes : FeeRate)
    (outputs : List Output) (evO : List Event) (enumerated : Option (List Utxo))
    (evG : List Event) (us : List Str) (evU : List Event)
    (hv : validate args = none)
    (hf : env.getChainFeeRate = .ok feeRes)
    (hbo : buildOutputs env (args.addresses.zip args.amounts) = (.ok outputs, evO))
    (hgu : getUtxosStep args env = (.ok enumerated, evG))
    (hus : utxosStep args env enumerated = (.ok us, evU))
    (hd : ∀ o ∈ outputs, dustValue ≤ o.tokens) :
    Event.feeQuery ∈ (fundTransaction args env).2 ∧
    ((fundTransaction args env).2).filter isFundEvent =
      [Event.fundCall outputs
        (if (us.map asUtxo).map asInput ≠ [] then some ((us.map asUtxo).map asInput) else none)
        (jsOr args.fee_tokens_per_vbyte feeRes.tokens_per_vbyte)] := by
  have hOf : evO.filter isFundEvent = [] := by
    have h1 := filter_eq_nil_of_false isFundEvent
      (buildOutputs env (args.addresses.zip args.amounts)).2
      (fun e he => by obtain ⟨a, rfl⟩ := buildOutputs_events env _ e he; rfl)
    rw [hbo] at h1
    exact h1
  have hGf : evG.filter isFundEvent = [] := by
    have h1 := filter_eq_nil_of_false isFundEvent (getUtxosStep args env).2
      (fun e he => by rw [getUtxosStep_events args env e he]; rfl)
    rw [hgu] at h1
    exact h1
  have hUf : evU.filter isFundEvent = [] := by
    have h1 := filter_eq_nil_of_false isFundEvent (utxosStep args env enumerated).2
      (fun e he => by rw [utxosStep_events args env enumerated e he]; rfl)
    rw [hus] at h1
    exact h1
  rw [fundTransaction_eq_of_reach args env feeRes outputs evO enumerated evG us evU hv hf hbo
    hgu hus, fundStep_no_dust args env feeRes outputs us hd]
  dsimp only
  cases hfp : env.fundPsbt outputs
      (if (us.map asUtxo).map asInput ≠ [] then some ((us.map asUtxo).map asInput) else none)
      (jsOr args.fee_tokens_per_vbyte feeRes.tokens_per_vbyte) with
  | error e =>
    refine ⟨by simp, ?_⟩
    simp [List.filter_append, hOf, hGf, hUf, isFundEvent]
  | ok f =>
    cases hls : unlockStep args env f with
    | mk rL evL =>
      have hLf : evL.filter isFundEvent = [] := by
        have h1 := filter_eq_nil_of_false isFundEvent (unlockStep args env f).2
          (fun e he => by obtain ⟨a, b, c, rfl⟩ := unlockStep_events args env f e he; rfl)
        rw [hls] at h1
        exact h1
      cases rL with
      | error e =>
        refine ⟨by simp [hls], ?_⟩
        simp [hls, List.filter_append, hOf, hGf, hUf, hLf, isFundEvent]
      | ok u =>
        cases hss : signStep env f with
        | mk rS evS =>
          have hSf : evS.filter isFundEvent = [] := by
            have h1 := filter_eq_nil_of_false isFundEvent (signStep env f).2
              (fun e he => by rw [signStep_events env f e he]; rfl)
            rw [hss] at h1
            exact h1
          cases rS with
          | error e =>
            refine ⟨by simp [hls, hss], ?_⟩
            simp [hls, hss, List.filter_append, hOf, hGf, hUf, hLf, hSf, isFundEvent]
          | ok tx =>
            refine ⟨by simp [hls, hss], ?_⟩
            simp [hls, hss, List.filter_append, hOf, hGf, hUf, hLf, hSf, isFundEvent]

/-! ### C3 -/

/-- C3: whenever the resolved outputs include one with token amount
strictly below the 293-token dust floor (and the workflow reaches the
funding step), the workflow fails with the dust-output error and the
funding primitive is never invoked. -/
theorem dust_output_blocks_funding (args : Args) (env : Env) (feeRes : FeeRate)
    (outputs : List Output) (evO : List Event) (enumerated : Option (List Utxo))
    (evG : List Event) (us : List Str) (evU : List Event)
    (hv : validate args = none)
    (hf : env.getChainFeeRate = .ok feeRes)
    (hbo : buildOutputs env (args.addresses.zip args.amounts) = (.ok outputs, evO))
    (hgu : getUtxosStep args env = (.ok enumerated, evG))
    (hus : utxosStep args env enumerated = (.ok us, evU))
    (hd : ∃ o ∈ outputs, o.tokens < dustValue) :
    (fundTransaction args env).1 =
      .error (.codeMsg 400 "ExpectedNonDustAmountValueForFundingAmount") ∧
    ((fundTransaction args env).2).filter isFundEvent = [] := by
  have hOf : evO.filter isFundEvent = [] := by
    have h1 := filter_eq_nil_of_false isFundEvent
      (buildOutputs env (args.addresses.zip args.amounts)).2
      (fun e he => by obtain ⟨a, rfl⟩ := buildOutputs_events env _ e he; rfl)
    rw [hbo] at h1
    exact h1
  have hGf : evG.filter isFundEvent = [] := by
    have h1 := filter_eq_nil_of_false isFundEvent (getUtxosStep args env).2
      (fun e he => by rw [getUtxosStep_events args env e he]; rfl)
    rw [hgu] at h1
    exact h1
  have hUf : evU.filter isFundEvent = [] := by
    have h1 := filter_eq_nil_of_false isFundEvent (utxosStep args env enumerated).2
      (fun e he => by rw [utxosStep_events args env enumerated e he]; rfl)
    rw [hus] at h1
    exact h1
  rw [fundTransaction_eq_of_reach args env feeRes outputs evO enumerated evG us evU hv hf hbo
    hgu hus, dust_blocks_fund args env feeRes outputs us hd]
  refine ⟨rfl, ?_⟩
  simp [List.filter_append, hOf, hGf, hUf, isFundEvent]

/-- Witness for C3: the baseline request against `envDust`. -/
theorem dust_output_blocks_funding_witness :
    (fundTransaction argsBase envDust).1 =
      .error (.codeMsg 400 "ExpectedNonDustAmountValueForFundingAmount") ∧
    ((fundTransaction argsBase envDust).2).filter isFundEvent = [] :=
  dust_output_blocks_funding argsBase envDust { tokens_per_vbyte := 2 }
    [{ address := "adr", tokens := 100 }] [.parseCall "0.001"] none [] [] []
    (by decide) rfl rfl rfl rfl (by decide)

/-! ### C5 -/

/-- Counterexample to C5 as stated: even when an explicit fee rate is
supplied, the external fee estimation is still queried (the `getFee` task
runs unconditionally after validation). -/
theorem explicit_fee_still_queries_estimator :
    argsFee.fee_tokens_per_vbyte = some 21 ∧
    Event.feeQuery ∈ (fundTransaction argsFee envA).2 := by
  exact ⟨rfl, by decide⟩

/-- C5 (amended): an explicit non-zero fee rate is passed verbatim to the
funding primitive, and with no explicit rate the externally queried rate
is used; however the external fee estimation is queried unconditionally
(its result is merely unused when an explicit non-zero rate is given). -/
theorem fee_rate_resolution (args : Args) (env : Env) (feeRes : FeeRate)
    (outputs : List Output) (evO : List Event) (enumerated : Option (List Utxo))
    (evG : List Event) (us : List Str) (evU : List Event)
    (hv : validate args = none)
    (hf : env.getChainFeeRate = .ok feeRes)
    (hbo : buildOutputs env (args.addresses.zip args.amounts) = (.ok outputs, evO))
    (hgu : getUtxosStep args env = (.ok enumerated, evG))
    (hus : utxosStep args env enumerated = (.ok us, evU))
    (hd : ∀ o ∈ outputs, dustValue ≤ o.tokens) :
    Event.feeQuery ∈ (fundTransaction args env).2 ∧
    ((fundTransaction args env).2).filter isFundEvent =
      [Event.fundCall outputs
        (if (us.map asUtxo).map asInput ≠ [] then some ((us.map asUtxo).map asInput) else none)
        (jsOr args.fee_tokens_per_vbyte feeRes.tokens_per_vbyte)] ∧
    (∀ v, args.fee_tokens_per_vbyte = some v → v ≠ 0 →
      jsOr args.fee_tokens_per_vbyte feeRes.tokens_per_vbyte = v) ∧
    (args.fee_tokens_per_vbyte = none →
      jsOr args.fee_tokens_per_vbyte feeRes.tokens_per_vbyte = feeRes.tokens_per_vbyte) := by
  obtain ⟨hmem, hfil⟩ := fund_call_trace args env feeRes outputs evO enumerated evG us evU
    hv hf hbo hgu hus hd
  refine ⟨hmem, hfil, ?_, ?_⟩
  · intro v hvv hnz
    simp [jsOr, hvv, hnz]
  · intro hn
    simp [jsOr, hn]

/-- Witness for C5 (amended) at the explicit-fee request `argsFee`. -/
theorem fee_rate_resolution_witness :
    Event.feeQuery ∈ (fundTransaction argsFee envA).2 ∧
    ((fundTransaction argsFee envA).2).filter isFundEvent =
      [Event.fundCall [{ address := "adr", tokens := 100000 }]
        (if (([] : List Str).map asUtxo).map asInput ≠ []
          then some ((([] : List Str).map asUtxo).map asInput) else none)
        (jsOr argsFee.fee_tokens_per_vbyte 2)] ∧
    (∀ v, argsFee.fee_tokens_per_vbyte = some v → v ≠ 0 →
      jsOr argsFee.fee_tokens_per_vbyte 2 = v) ∧
    (argsFee.fee_tokens_per_vbyte = none →
      jsOr argsFee.fee_tokens_per_vbyte 2 = 2) :=
  fee_rate_resolution argsFee envA { tokens_per_vbyte := 2 }
    [{ address := "adr", tokens := 100000 }] [.parseCall "0.001"] none [] [] []
    (by decide) rfl rfl rfl rfl (by decide)

/-! ### C6 -/

/-- C6: the funding primitive receives `inputs` omitted entirely (`none`)
exactly when the resolved coin list is empty, and otherwise receives the
parsed input records of the resolved coins. -/
theorem inputs_omitted_iff_no_coins (args : Args) (env : Env) (feeRes : FeeRate)
    (outputs : List Output) (evO : List Event) (enumerated : Option (List Utxo))
    (evG : List Event) (us : List Str) (evU : List Event)
    (hv : validate args = none)
    (hf : env.getChainFeeRate = .ok feeRes)
    (hbo : buildOutputs env (args.addresses.zip args.amounts) = (.ok outputs, evO))
    (hgu : getUtxosStep args env = (.ok enumerated, evG))
    (hus : utxosStep args env enumerated = (.ok us, evU))
    (hd : ∀ o ∈ outputs, dustValue ≤ o.tokens) :
    (us = [] →
      ((fundTransaction args env).2).filter isFundEvent =
        [Event.fundCall outputs none
          (jsOr args.fee_tokens_per_vbyte feeRes.tokens_per_vbyte)]) ∧
    (us ≠ [] →
      ((fundTransaction args env).2).filter isFundEvent =
        [Event.fundCall outputs (some ((us.map asUtxo).map asInput))
          (jsOr args.fee_tokens_per_vbyte feeRes.tokens_per_vbyte)]) := by
  obtain ⟨_, hfil⟩ := fund_call_trace args env feeRes outputs evO enumerated evG us evU
    hv hf hbo hgu hus hd
  constructor
  · intro hnil
    subst hnil
    simpa using hfil
  · intro hne
    have hmaps : (us.map asUtxo).map asInput ≠ [] := by
      simp [hne]
    rw [if_pos hmaps] at hfil
    exact hfil

/-- Witness for C6: the explicit-coin request resolves `us` to that coin
and the funder receives its parsed input record. -/
theorem inputs_omitted_iff_no_coins_witness :
    (([exHash ++ ':' :: ['7']] : List Str) = [] →
      ((fundTransaction argsCoin envA).2).filter isFundEvent =
        [Event.fundCall [{ address := "adr", tokens := 100000 }] none
          (jsOr argsCoin.fee_tokens_per_vbyte 2)]) ∧
    (([exHash ++ ':' :: ['7']] : List Str) ≠ [] →
      ((fundTransaction argsCoin envA).2).filter isFundEvent =
        [Event.fundCall [{ address := "adr", tokens := 100000 }]
          (some ((([exHash ++ ':' :: ['7']] : List Str).map asUtxo).map asInput))
          (jsOr argsCoin.fee_tokens_per_vbyte 2)]) :=
  inputs_omitted_iff_no_coins argsCoin envA { tokens_per_vbyte := 2 }
    [{ address := "adr", tokens := 100000 }] [.parseCall "0.001"] none []
    [exHash ++ ':' :: ['7']] []
    (by decide) rfl rfl rfl rfl (by decide)

/-! ### C9 -/

/-- C9: an explicit fee rate of 0 is discarded by the JS truthiness test,
so the rate passed to the funding primitive is the externally queried
rate, exactly as if no fee rate had been supplied. -/
theorem zero_fee_rate_uses_queried_rate (args : Args) (env : Env) (feeRes : FeeRate)
    (outputs : List Output) (evO : List Event) (enumerated : Option (List Utxo))
    (evG : List Event) (us : List Str) (evU : List Event)
    (hv : validate args = none)
    (hf : env.getChainFeeRate = .ok feeRes)
    (hbo : buildOutputs env (args.addresses.zip args.amounts) = (.ok outputs, evO))
    (hgu : getUtxosStep args env = (.ok enumerated, evG))
    (hus : utxosStep args env enumerated = (.ok us, evU))
    (hd : ∀ o ∈ outputs, dustValue ≤ o.tokens)
    (hz : args.fee_tokens_per_vbyte = some 0) :
    Event.feeQuery ∈ (fundTransaction args env).2 ∧
    ((fundTransaction args env).2).filter isFundEvent =
      [Event.fundCall outputs
        (if (us.map asUtxo).map asInput ≠ [] then some ((us.map asUtxo).map asInput) else none)
        feeRes.tokens_per_vbyte] := by
  obtain ⟨hmem, hfil⟩ := fund_call_trace args env feeRes outputs evO enumerated evG us evU
    hv hf hbo hgu hus hd
  have hj : jsOr args.fee_tokens_per_vbyte feeRes.tokens_per_vbyte =
      feeRes.tokens_per_vbyte := by
    simp [jsOr, hz]
  rw [hj] at hfil
  exact ⟨hmem, hfil⟩

/-- Witness for C9: with `fee_tokens_per_vbyte = some 0`, the funder is
called with the queried rate 2. -/
theorem zero_fee_rate_uses_queried_rate_witness :
    Event.feeQuery ∈ (fundTransaction argsZeroFee envA).2 ∧
    ((fundTransaction argsZeroFee envA).2).filter isFundEvent =
      [Event.fundCall [{ address := "adr", tokens := 100000 }]
        (if (([] : List Str).map asUtxo).map asInput ≠ []
          then some ((([] : List Str).map asUtxo).map asInput) else none)
        2] :=
  zero_fee_rate_uses_queried_rate argsZeroFee envA { tokens_per_vbyte := 2 }
    [{ address := "adr", tokens := 100000 }] [.parseCall "0.001"] none [] [] []
    (by decide) rfl rfl rfl rfl (by decide) rfl

/-! ### C1 -/

theorem signStep_ok (env : Env) (fund : FundedTx) (tx : String)
    (h : env.signPsbt fund.psbt = .ok tx) :
    signStep env fund = (.ok tx, [.signCall fund.psbt]) := by
  unfold signStep
  rw [h]

/-- C1: in a successful dry run, exactly one unlock call is issued per
input of the funded transaction — with that input's lock identifier,
transaction id and output index, in the order of the funded inputs — and
the signer is still invoked on the funded PSBT; when the request is not a
dry run, no unlock call is issued at all (and signing still happens). -/
theorem dry_run_unlock_and_sign (args : Args) (env : Env) (feeRes : FeeRate)
    (outputs : List Output) (evO : List Event) (enumerated : Option (List Utxo))
    (evG : List Event) (us : List Str) (evU : List Event) (f : FundedTx) (evF : List Event)
    (tx : String)
    (hv : validate args = none)
    (hf : env.getChainFeeRate = .ok feeRes)
    (hbo : buildOutputs env (args.addresses.zip args.amounts) = (.ok outputs, evO))
    (hgu : getUtxosStep args env = (.ok enumerated, evG))
    (hus : utxosStep args env enumerated = (.ok us, evU))
    (hfs : fundStep args env feeRes outputs us = (.ok f, evF))
    (hsn : env.signPsbt f.psbt = .ok tx) :
    (args.is_dry_run = true →
      (∀ i ∈ f.inputs,
        env.unlockUtxo i.lock_id i.transaction_id i.transaction_vout = .ok ()) →
      (fundTransaction args env).1 = .ok { signed_transaction := tx } ∧
      ((fundTransaction args env).2).filter isUnlockEvent =
        f.inputs.map (fun i =>
          Event.unlockCall i.lock_id i.transaction_id i.transaction_vout) ∧
      Event.signCall f.psbt ∈ (fundTransaction args env).2) ∧
    (args.is_dry_run = false →
      ((fundTransaction args env).2).filter isUnlockEvent = [] ∧
      (fundTransaction args env).1 = .ok { signed_transaction := tx } ∧
      Event.signCall f.psbt ∈ (fundTransaction args env).2) := by
  have hOf : evO.filter isUnlockEvent = [] := by
    have h1 := filter_eq_nil_of_false isUnlockEvent
      (buildOutputs env (args.addresses.zip args.amounts)).2
      (fun e he => by obtain ⟨a, rfl⟩ := buildOutputs_events env _ e he; rfl)
    rw [hbo] at h1
    exact h1
  have hGf : evG.filter isUnlockEvent = [] := by
    have h1 := filter_eq_nil_of_false isUnlockEvent (getUtxosStep args env).2
      (fun e he => by rw [getUtxosStep_events args env e he]; rfl)
    rw [hgu] at h1
    exact h1
  have hUf : evU.filter isUnlockEvent = [] := by
    have h1 := filter_eq_nil_of_false isUnlockEvent (utxosStep args env enumerated).2
      (fun e he => by rw [utxosStep_events args env enumerated e he]; rfl)
    rw [hus] at h1
    exact h1
  have hFf : evF.filter isUnlockEvent = [] := by
    have h1 := filter_eq_nil_of_false isUnlockEvent (fundStep args env feeRes outputs us).2
      (fun e he => by obtain ⟨o, i, fe, rfl⟩ := fundStep_events args env feeRes outputs us e he; rfl)
    rw [hfs] at h1
    exact h1
  have hS := signStep_ok env f tx hsn
  rw [fundTransaction_eq_of_reach args env feeRes outputs evO enumerated evG us evU hv hf hbo
    hgu hus]
  simp only [hfs]
  constructor
  · intro hdr hun
    simp only [unlockStep_ok args env f hdr hun, hS]
    refine ⟨trivial, ?_, by simp⟩
    simp only [List.filter_cons, List.filter_append, List.filter_map, hOf, hGf, hUf, hFf]
    have hcomp : (isUnlockEvent ∘ fun i : FundedInput =>
        Event.unlockCall i.lock_id i.transaction_id i.transaction_vout) = fun _ => true :=
      funext fun i => rfl
    rw [hcomp, List.filter_true]
    simp [isUnlockEvent]
  · intro hdr
    simp only [unlockStep_not_dry args env f hdr, hS]
    refine ⟨?_, trivial, by simp⟩
    simp [List.filter_append, hOf, hGf, hUf, hFf, isUnlockEvent]

/-- Witness for C1: a successful dry run over `exFunded` (two inputs)
unlocks both inputs and still signs; the non-dry-run conjunct is
instantiated at the same request. -/
theorem dry_run_unlock_and_sign_witness :
    (argsDry.is_dry_run = true →
      (∀ i ∈ exFunded.inputs,
        envA.unlockUtxo i.lock_id i.transaction_id i.transaction_vout = .ok ()) →
      (fundTransaction argsDry envA).1 = .ok { signed_transaction := "feedbeef" } ∧
      ((fundTransaction argsDry envA).2).filter isUnlockEvent =
        exFunded.inputs.map (fun i =>
          Event.unlockCall i.lock_id i.transaction_id i.transaction_vout) ∧
      Event.signCall exFunded.psbt ∈ (fundTransaction argsDry envA).2) ∧
    (argsDry.is_dry_run = false →
      ((fundTransaction argsDry envA).2).filter isUnlockEvent = [] ∧
      (fundTransaction argsDry envA).1 = .ok { signed_transaction := "feedbeef" } ∧
      Event.signCall exFunded.psbt ∈ (fundTransaction argsDry envA).2) :=
  dry_run_unlock_and_sign argsDry envA { tokens_per_vbyte := 2 }
    [{ address := "adr", tokens := 100000 }] [.parseCall "0.001"] none [] [] []
    exFunded [.fundCall [{ address := "adr", tokens := 100000 }] none 2] "feedbeef"
    (by decide) rfl rfl rfl rfl rfl rfl

/-! ### C7 -/

/-- C7: with interactive selection enabled and a coin enumeration that
returns zero confirmed coins, the workflow fails with the empty-wallet
error and the interactive prompt is never invoked. -/
theorem empty_wallet_no_prompt (args : Args) (env : Env) (feeRes : FeeRate)
    (outputs : List Output) (evO : List Event)
    (hv : validate args = none)
    (hsel : args.is_selecting_utxos = true)
    (hf : env.getChainFeeRate = .ok feeRes)
    (hbo : buildOutputs env (args.addresses.zip args.amounts) = (.ok outputs, evO))
    (hge : env.getUtxos = .ok []) :
    (fundTransaction args env).1 = .error (.codeMsg 400 "WalletHasZeroConfirmedUtxos") ∧
    Event.askPrompt ∉ (fundTransaction args env).2 := by
  have hue : args.utxos = [] := (validate_none_facts args hv).2.2.2.2 hsel
  have hgu : getUtxosStep args env = (.ok (some []), [.utxoQuery]) := by
    unfold getUtxosStep
    rw [if_neg (by simp [hsel]), hge]
  have hus : utxosStep args env (some []) =
      (.error (.codeMsg 400 "WalletHasZeroConfirmedUtxos"), []) := by
    unfold utxosStep
    rw [if_neg (by simp [hue]), if_neg (by simp [hsel])]
    rfl
  have hev := buildOutputs_events env (args.addresses.zip args.amounts)
  rw [hbo] at hev
  simp only [fundTransaction, hv, hf, hbo, hgu, hus]
  refine ⟨by simp, ?_⟩
  intro hmem
  rcases List.mem_cons.mp hmem with h1 | hmem2
  · exact Event.noConfusion h1
  · rcases List.mem_append.mp hmem2 with h3 | h4
    · rcases List.mem_append.mp h3 with h5 | h6
      · obtain ⟨a, ha⟩ := hev _ h5
        exact Event.noConfusion ha
      · exact Event.noConfusion (List.mem_singleton.mp h6)
    · exact (List.not_mem_nil _) h4

/-- Witness for C7: selecting against `envA`, whose wallet has no coins. -/
theorem empty_wallet_no_prompt_witness :
    (fundTransaction argsSel envA).1 =
      .error (.codeMsg 400 "WalletHasZeroConfirmedUtxos") ∧
    Event.askPrompt ∉ (fundTransaction argsSel envA).2 :=
  empty_wallet_no_prompt argsSel envA { tokens_per_vbyte := 2 }
    [{ address := "adr", tokens := 100000 }] [.parseCall "0.001"]
    (by decide) rfl rfl rfl rfl

/-! ### C10 -/

theorem buildOutputs_length (env : Env) (l : List (Str × String)) :
    ∀ os ev, buildOutputs env l = (.ok os, ev) → os.length = l.length := by
  induction l with
  | nil =>
    intro os ev h
    simp only [buildOutputs, Prod.mk.injEq, Except.ok.injEq] at h
    rw [← h.1]
    rfl
  | cons p rest ih =>
    intro os ev h
    obtain ⟨addr, amt⟩ := p
    simp only [buildOutputs] at h
    cases hpa : env.parseAmount amt with
    | error e =>
      rw [hpa] at h
      simp at h
    | ok tokens =>
      rw [hpa] at h
      cases hrec : buildOutputs env rest with
      | mk r ev2 =>
        rw [hrec] at h
        cases r with
        | error e => simp at h
        | ok os2 =>
          simp only [Prod.mk.injEq, Except.ok.injEq] at h
          rw [← h.1]
          simp [ih os2 ev2 hrec]

/-- C10: the dust-floor check runs only inside the funding step, after
fee resolution and coin selection: with interactive selection enabled and
every resolved output below the dust floor, the interactive prompt is
still shown before the workflow fails with the dust-output error (and
the funding primitive is never invoked). -/
theorem dust_checked_after_selection (args : Args) (env : Env) (feeRes : FeeRate)
    (outputs : List Output) (evO : List Event) (eus : List Utxo)
    (hv : validate args = none)
    (hsel : args.is_selecting_utxos = true)
    (hf : env.getChainFeeRate = .ok feeRes)
    (hbo : buildOutputs env (args.addresses.zip args.amounts) = (.ok outputs, evO))
    (hge : env.getUtxos = .ok eus)
    (hene : eus ≠ [])
    (hd : ∀ o ∈ outputs, o.tokens < dustValue) :
    Event.askPrompt ∈ (fundTransaction args env).2 ∧
    (fundTransaction args env).1 =
      .error (.codeMsg 400 "ExpectedNonDustAmountValueForFundingAmount") ∧
    ((fundTransaction args env).2).filter isFundEvent = [] := by
  have hfacts := validate_none_facts args hv
  have hue : args.utxos = [] := hfacts.2.2.2.2 hsel
  have hone : outputs ≠ [] := by
    intro hnil
    have hlen := buildOutputs_length env (args.addresses.zip args.amounts) outputs evO hbo
    rw [hnil] at hlen
    simp only [List.length_nil, List.length_zip] at hlen
    have heq := hfacts.2.2.1
    have hane : args.addresses ≠ [] := hfacts.2.1
    have hlne : args.addresses.length ≠ 0 := by
      simpa [List.length_eq_zero] using hane
    omega
  have hd' : ∃ o ∈ outputs, o.tokens < dustValue := by
    cases outputs with
    | nil => exact absurd rfl hone
    | cons a t => exact ⟨a, by simp, hd a (by simp)⟩
  have hgu : getUtxosStep args env = (.ok (some eus), [.utxoQuery]) := by
    unfold getUtxosStep
    rw [if_neg (by simp [hsel]), hge]
  have hus : utxosStep args env (some eus) = (.ok env.askAnswer, [.askPrompt]) := by
    unfold utxosStep
    rw [if_neg (by simp [hue]), if_neg (by simp [hsel])]
    dsimp only
    rw [if_neg (by simp [hene])]
  have hOf : evO.filter isFundEvent = [] := by
    have h1 := filter_eq_nil_of_false isFundEvent
      (buildOutputs env (args.addresses.zip args.amounts)).2
      (fun e he => by obtain ⟨a, rfl⟩ := buildOutputs_events env _ e he; rfl)
    rw [hbo] at h1
    exact h1
  rw [fundTransaction_eq_of_reach args env feeRes outputs evO (some eus) [.utxoQuery]
    env.askAnswer [.askPrompt] hv hf hbo hgu hus,
    dust_blocks_fund args env feeRes outputs env.askAnswer hd']
  refine ⟨by simp, rfl, ?_⟩
  simp [List.filter_append, hOf, isFundEvent]

/-- Witness for C10: selecting interactively with every output below the
dust floor still shows the prompt before the dust failure. -/
theorem dust_checked_after_selection_witness :
    Event.askPrompt ∈ (fundTransaction argsSel envDustSel).2 ∧
    (fundTransaction argsSel envDustSel).1 =
      .error (.codeMsg 400 "ExpectedNonDustAmountValueForFundingAmount") ∧
    ((fundTransaction argsSel envDustSel).2).filter isFundEvent = [] :=
  dust_checked_after_selection argsSel envDustSel { tokens_per_vbyte := 2 }
    [{ address := "adr", tokens := 100 }] [.parseCall "0.001"] [exCoin]
    (by decide) rfl rfl rfl rfl (by decide) (by decide)

end FundTransaction
